import Mathlib

/-!
# GrowSense dashboard cache layer — verification of the specified properties

Shallow embedding of the client-side cache/sync logic of the GrowSense
dashboard (`app/static/main.js`, the user-centric multi-device version):

* `mergeReadings` — incremental merge of recent readings (dedup by id via a
  JS `Map`, stable sort by timestamp descending, trim to capacity);
* `downsampleReadings` — stride-based downsampling for chart display;
* `loadFromLocalStorage` / `saveToLocalStorage` / `clearOldCaches` — durable
  per-owner persistence with owner verification and quota handling;
* the `loadUserData` refresh tick (restore, incremental fetch, historical
  fetch with empty-result cooldown, persist).

Conventions of the embedding:

* JS reading objects become the structure `Reading`.  The dedup key
  `reading.id` is modelled as a `Nat`, with `0` playing the role of a JS
  falsy id (absent / null / 0); the JS truthiness test `if (reading.id)`
  becomes `r.id ≠ 0`.  Timestamps (ISO strings, compared after `new Date`
  conversion) are modelled as `Int` milliseconds; `Date` conversion of an ISO
  string is strictly monotone, so comparisons are preserved.  The sensor
  measurements (temperature, humidity, …), which the cache layer only copies
  around, are abbreviated by a single `payload` field.
* A JS `Map` is an insertion-ordered association list; `Map.set` replaces in
  place when the key exists and appends otherwise (`mapSet`).
* `Array.prototype.sort` is stable (ECMAScript 2019); a stable sort with the
  comparator `timeB - timeA` is modelled by `List.insertionSort` with the
  relation `tsGE a b ↔ tsOf b ≤ tsOf a`, which is a stable descending sort
  and therefore produces the same list.
* `localStorage` is an association list from string keys to stored records;
  a quota-limited `setItem` fails exactly when it would grow the store past
  its capacity (overwrites of an existing key succeed).
-/

namespace GrowSense

/-- One sensor reading as the dashboard handles it.  `id` is the dedup key
(`0` = JS-falsy / absent); `server_timestamp` is optional, `timestamp` is the
device timestamp; `payload` abbreviates the sensor measurement fields, which
the cache layer never inspects. -/
structure Reading where
  id : Nat
  server_timestamp : Option Int
  timestamp : Int
  payload : Int
deriving DecidableEq

/-- `CONFIG.recentReadingsLimit` (main.js): 120 high-res readings per device. -/
def CONFIG_recentReadingsLimit : Nat := 120

/-- `CONFIG.maxDevices` (main.js): at most 4 devices displayed. -/
def CONFIG_maxDevices : Nat := 4

/-- `CONFIG.chartMaxPoints` (main.js): at most 120 points per chart. -/
def CONFIG_chartMaxPoints : Nat := 120

/-- `CONFIG.historicalEmptyFetchCooldownMs` (main.js): 1 hour in ms. -/
def CONFIG_historicalEmptyFetchCooldownMs : Int := 60 * 60 * 1000

/-- `maxReadings` in `mergeReadings`: `recentReadingsLimit * maxDevices` = 480. -/
def maxReadings : Nat := CONFIG_recentReadingsLimit * CONFIG_maxDevices

/-- The sort key of `mergeReadings`: `new Date(a.server_timestamp || a.timestamp)`. -/
def tsOf (r : Reading) : Int := r.server_timestamp.getD r.timestamp

/-- `a` may come before `b` in the descending-by-timestamp order (the JS
comparator `timeB - timeA` sorts so that larger timestamps come first). -/
def tsGE (a b : Reading) : Prop := tsOf b ≤ tsOf a

instance : DecidableRel tsGE := fun a b => Int.decLe (tsOf b) (tsOf a)

instance : IsTotal Reading tsGE := ⟨fun a b => Int.le_total (tsOf b) (tsOf a)⟩

instance : IsTrans Reading tsGE :=
  ⟨fun _ _ _ h h' => Int.le_trans h' h⟩

/-- JS `Map.set` on an insertion-ordered association list keyed by reading id:
replace in place if the key is present, append otherwise. -/
def mapSet (m : List (Nat × Reading)) (k : Nat) (v : Reading) : List (Nat × Reading) :=
  if m.any (fun p => p.1 == k) then
    m.map (fun p => if p.1 == k then (k, v) else p)
  else
    m ++ [(k, v)]

/-- One `readingMap.set` step of `mergeReadings`:
`if (reading.id) { readingMap.set(reading.id, reading); }`. -/
def addReading (m : List (Nat × Reading)) (r : Reading) : List (Nat × Reading) :=
  if r.id ≠ 0 then mapSet m r.id r else m

/-- `mergeReadings(oldReadings, newReadings)` from main.js: return `old`
unchanged when `incoming` is empty; otherwise build a `Map` keyed by id from
`old` then `incoming` (incoming overwrites), sort the values by timestamp
descending (stable), and keep only the first `maxReadings` entries. -/
def mergeReadings (oldReadings newReadings : List Reading) : List Reading :=
  if newReadings.isEmpty then oldReadings
  else
    let readingMap := newReadings.foldl addReading (oldReadings.foldl addReading [])
    let merged := readingMap.map Prod.snd
    let sorted := List.insertionSort tsGE merged
    sorted.take maxReadings

/-- Modelled from the spec: the clause "`trim` to capacity by dropping the
oldest entries (truncate the tail of the descending-sorted list)".  The
repository has no separate trim function (trimming is inlined in
`mergeReadings` as `merged.slice(0, maxReadings)`), so this follows the
spec's words: truncate to capacity. -/
def trim (l : List Reading) : List Reading := l.take maxReadings

/-- The last element of `l` whose id is `k` (later entries win), as produced
by folding `Map.set` left to right. -/
def lastWith (l : List Reading) (k : Nat) : Option Reading :=
  l.foldl (fun acc r => if r.id = k then some r else acc) none

/-- Helper for the stride loop: `strideAux stride c l` skips the next `c`
elements, then picks one and skips `stride - 1` again. -/
def strideAux (stride : Nat) : Nat → List Reading → List Reading
  | _, [] => []
  | 0, x :: xs => x :: strideAux stride (stride - 1) xs
  | c + 1, _ :: xs => strideAux stride c xs

/-- The stride loop of `downsampleReadings`:
`for (let i = 0; i < readings.length; i += stride) sampled.push(readings[i])`,
i.e. the elements at indices `0, stride, 2*stride, …` (for `stride ≥ 1`). -/
def strideSample (stride : Nat) (l : List Reading) : List Reading :=
  strideAux stride 0 l

/-- `downsampleReadings(readings, maxPoints)` from main.js: lists within the
budget are returned unchanged; otherwise every `stride`-th element is
selected with `stride = Math.ceil(length / maxPoints)` and the final reading
is appended when the selection did not already end with it.  (The JS code
compares `sampled[last] !== readings[len-1]` by object identity; distinct
elements of a readings array are distinct objects, so equality of the
embedded values coincides with it.) -/
def downsampleReadings (readings : List Reading) (maxPoints : Nat) : List Reading :=
  if readings.length ≤ maxPoints then readings
  else
    let stride := (readings.length + maxPoints - 1) / maxPoints
    let sampled := strideSample stride readings
    if sampled.getLast? = readings.getLast? then sampled
    else sampled ++ readings.getLast?.toList

/-! ## Durable persistence (localStorage) and the refresh tick -/

/-- The record `saveToLocalStorage` serializes per owner (main.js `toSave`). -/
structure CachedRecord where
  user_id : String
  cached_at : Int
  readings : List Reading
  hourly_samples : List Reading
  last_fetch_timestamp : Option Int
  historical_fetch_attempted_at : Option Int
deriving DecidableEq

/-- `localStorage` as seen through `JSON.parse`: an insertion-ordered
association list from string keys to stored records, shared by every owner
who has used the browser profile. -/
abbrev Storage := List (String × CachedRecord)

/-- `getLocalStorageKey(userId)`: the cache key prefixed string
(`growsense_cache_` + userId, the `CACHE_KEY_PREFIX` constant inlined). -/
def getLocalStorageKey (userId : String) : String := "growsense_cache_" ++ userId

/-- `localStorage.getItem(key)` (first entry with the key). -/
def getItem (store : Storage) (key : String) : Option CachedRecord :=
  (store.find? (fun p => p.1 == key)).map Prod.snd

/-- `loadFromLocalStorage(userId)`: falsy userId loads nothing; otherwise the
record stored under the owner's key is returned only when its stored
`user_id` tag matches the requesting owner. -/
def loadFromLocalStorage (userId : String) (store : Storage) : Option CachedRecord :=
  if userId = "" then none
  else
    match getItem store (getLocalStorageKey userId) with
    | none => none
    | some data => if data.user_id = userId then some data else none

/-- Whether `localStorage.setItem` succeeds under a quota of `cap` entries:
overwriting an existing key succeeds; adding a new entry succeeds only below
capacity, and otherwise throws `QuotaExceededError`. -/
def setItemOk (cap : Nat) (store : Storage) (key : String) : Bool :=
  store.any (fun p => p.1 == key) || store.length < cap

/-- `localStorage.setItem(key, v)` (on success): replace in place or append. -/
def setItem (store : Storage) (key : String) (v : CachedRecord) : Storage :=
  if store.any (fun p => p.1 == key) then
    store.map (fun p => if p.1 == key then (key, v) else p)
  else
    store ++ [(key, v)]

/-- `key.startsWith(CACHE_KEY_PREFIX)` as a computable character-list check
(`String.startsWith` itself does not reduce in the kernel; this is the same
predicate on the underlying character lists). -/
def strStartsWith (s pre : String) : Bool := pre.data.isPrefixOf s.data

/-- `clearOldCaches(keepUserId)`: remove every `growsense_cache_`-prefixed
entry except the current owner's. -/
def clearOldCaches (store : Storage) (keepUserId : String) : Storage :=
  store.filter (fun p =>
    !(strStartsWith p.1 "growsense_cache_" && p.1 != getLocalStorageKey keepUserId))

/-- The in-memory `dataCache` object of main.js. -/
structure DataCache where
  readings : List Reading
  hourly_samples : List Reading
  last_fetch_timestamp : Option Int
deriving DecidableEq

/-- `saveToLocalStorage(userId, cacheData, historicalFetchAttempted)`:
build `toSave` (carrying the previous owner-verified record's
`historical_fetch_attempted_at` forward unless a historical fetch was just
attempted, in which case it becomes `now`), then `setItem`; on
`QuotaExceededError` run `clearOldCaches(userId)` — the write itself is not
reattempted. -/
def saveToLocalStorage (cap : Nat) (store : Storage) (userId : String)
    (cacheData : DataCache) (historicalFetchAttempted : Bool) (now : Int) : Storage :=
  if userId = "" then store
  else
    let key := getLocalStorageKey userId
    let existing := loadFromLocalStorage userId store
    let toSave : CachedRecord :=
      { user_id := userId
        cached_at := now
        readings := cacheData.readings
        hourly_samples := cacheData.hourly_samples
        last_fetch_timestamp := cacheData.last_fetch_timestamp
        historical_fetch_attempted_at :=
          if historicalFetchAttempted then some now
          else existing.bind (fun e => e.historical_fetch_attempted_at) }
    if setItemOk cap store key then setItem store key toSave
    else clearOldCaches store userId

/-- The `/user_data` response as the client consumes it.  The client reads
only `data.readings`; `new_cursor` stands for a server-supplied cursor field,
which the client code never looks at (no such field exists in the protocol —
it is carried here so that statements about it can be made at all). -/
structure ServerResponse where
  readings : List Reading
  new_cursor : Option Int
deriving DecidableEq

/-- The cache effect of a `fetchUserData()` call (main.js lines 323–380),
given the network outcome `resp` and the client clock `now`.  A network
error or non-OK response throws before any cache mutation.  On success, an
incremental response is merged when a cursor and cached readings exist,
otherwise the response replaces the cache; finally the cursor is set to
`new Date().toISOString()` — the client's own wall clock. -/
def fetchUserData (cache : DataCache) (resp : Except Unit ServerResponse) (now : Int) :
    Except Unit DataCache :=
  match resp with
  | .error e => .error e
  | .ok data =>
    let cache1 :=
      match cache.last_fetch_timestamp, cache.readings with
      | some _, _ :: _ => { cache with readings := mergeReadings cache.readings data.readings }
      | _, _ => { cache with readings := data.readings }
    .ok { cache1 with last_fetch_timestamp := some now }

/-- The client-session state outside `localStorage`: the in-memory
`dataCache` and the `historicalFetchCompleted` flag. -/
structure MemState where
  dataCache : DataCache
  historicalFetchCompleted : Bool
deriving DecidableEq

/-- `cachedData?.hourly_samples?.length > 0` / `dataCache.hourly_samples?.length > 0`. -/
def hasHistorical (l : List Reading) : Bool := decide (0 < l.length)

/-- The cooldown test of `loadUserData` (lines 504–515): with a persisted
attempt timestamp, the empty-fetch cooldown is active unless
`Date.now() - lastAttempt > historicalEmptyFetchCooldownMs`. -/
def recentlyFetchedEmpty (cached : Option CachedRecord) (now : Int) : Bool :=
  match cached.bind (fun c => c.historical_fetch_attempted_at) with
  | none => false
  | some lastAttempt =>
    !(decide (now - lastAttempt > CONFIG_historicalEmptyFetchCooldownMs))

/-- `needsHistoricalFetch` (line 518): no historical data in localStorage,
none in memory, none fetched this session, and no cooldown active.  Note the
in-memory check uses the state *before* the restore step, as in the source. -/
def needsHistoricalFetchB (cached : Option CachedRecord) (mem : MemState) (now : Int) : Bool :=
  !(hasHistorical ((cached.map (fun c => c.hourly_samples)).getD []))
    && !(hasHistorical mem.dataCache.hourly_samples)
    && !mem.historicalFetchCompleted
    && !(recentlyFetchedEmpty cached now)

/-- The restore step of `loadUserData` (lines 522–532): when a cached record
exists and memory holds no historical samples, the in-memory cache is
replaced by the persisted copy, and `historicalFetchCompleted` is set when
the restored record carries historical samples. -/
def restoreStep (mem : MemState) (cached : Option CachedRecord) : MemState :=
  match cached with
  | none => mem
  | some c =>
    if hasHistorical mem.dataCache.hourly_samples then mem
    else
      { dataCache :=
          { readings := c.readings
            hourly_samples := c.hourly_samples
            last_fetch_timestamp := c.last_fetch_timestamp }
        historicalFetchCompleted :=
          if hasHistorical c.hourly_samples then true else mem.historicalFetchCompleted }

/-- The historical-fetch step of `loadUserData` (lines 543–567): when a
fetch is needed it is issued (the sequential tick never sees an in-flight
fetch); its result — or `[]` on error — becomes `hourly_samples`, and
`historicalFetchCompleted` is set even for empty results.  Returns the new
state and whether a historical fetch was just attempted. -/
def historicalStep (mem : MemState) (needsHist : Bool)
    (histResp : Except Unit (List Reading)) : MemState × Bool :=
  if needsHist then
    ({ dataCache := { mem.dataCache with hourly_samples := histResp.toOption.getD [] }
       historicalFetchCompleted := true }, true)
  else (mem, false)

/-- What a refresh tick reports. -/
structure TickInfo where
  issuedHistorical : Bool
  fetchSucceeded : Bool
deriving DecidableEq

/-- One `loadUserData()` refresh tick (main.js lines 487–595), restricted to
its cache effects: read the owner's persisted record, decide whether a
historical fetch is due, restore memory from the persisted copy, run the
incremental recent fetch (a failure aborts the tick, caught at the end of
`loadUserData`, leaving storage untouched), then the historical step, then
persist.  `recentResp`/`histResp` are the network outcomes of this tick and
`now` the client clock. -/
def tick (cap : Nat) (store : Storage) (mem : MemState) (userId : String) (now : Int)
    (recentResp : Except Unit ServerResponse) (histResp : Except Unit (List Reading)) :
    Storage × MemState × TickInfo :=
  if userId = "" then (store, mem, ⟨false, false⟩)
  else
    let cached := loadFromLocalStorage userId store
    let needsHist := needsHistoricalFetchB cached mem now
    let mem1 := restoreStep mem cached
    match fetchUserData mem1.dataCache recentResp now with
    | .error _ => (store, mem1, ⟨false, false⟩)
    | .ok cache2 =>
      let (mem3, issued) := historicalStep { mem1 with dataCache := cache2 } needsHist histResp
      let store1 := saveToLocalStorage cap store userId mem3.dataCache issued now
      (store1, mem3, ⟨issued, true⟩)

/-- The inputs a single tick consumes. -/
structure TickInput where
  now : Int
  recentResp : Except Unit ServerResponse
  histResp : Except Unit (List Reading)

/-- Run a sequence of refresh ticks, collecting each tick's report. -/
def runTicks (cap : Nat) (userId : String) (store : Storage) (mem : MemState) :
    List TickInput → Storage × MemState × List TickInfo
  | [] => (store, mem, [])
  | i :: is =>
    let r := tick cap store mem userId i.now i.recentResp i.histResp
    let rest := runTicks cap userId r.1 r.2.1 is
    (rest.1, rest.2.1, r.2.2 :: rest.2.2)

/-! ## Association-map lemmas for `mergeReadings` -/

/-- The keys of the reading map. -/
def keysOf (m : List (Nat × Reading)) : List Nat := m.map Prod.fst

/-- `Map.get` by id. -/
def lookupId (m : List (Nat × Reading)) (k : Nat) : Option Reading :=
  (m.find? (fun p => p.1 == k)).map Prod.snd

/-- Well-formedness of the reading map as `mergeReadings` builds it: keys are
pairwise distinct, every entry is stored under its own (truthy) id. -/
def goodMap (m : List (Nat × Reading)) : Prop :=
  (keysOf m).Nodup ∧ ∀ p ∈ m, p.2.id = p.1 ∧ p.1 ≠ 0

theorem goodMap_nil : goodMap [] := ⟨List.nodup_nil, by simp⟩

theorem keysOf_map_replace (m : List (Nat × Reading)) (k : Nat) (v : Reading) :
    keysOf (m.map (fun p => if p.1 == k then (k, v) else p)) = keysOf m := by
  simp only [keysOf, List.map_map]
  apply List.map_congr_left
  intro p _
  by_cases h : p.1 = k
  · simp [h]
  · simp [h]

theorem mapSet_eq_replace {m : List (Nat × Reading)} {k : Nat} (v : Reading)
    (h : m.any (fun p => p.1 == k) = true) :
    mapSet m k v = m.map (fun p => if p.1 == k then (k, v) else p) := by
  unfold mapSet
  rw [h]
  simp

theorem mapSet_eq_append {m : List (Nat × Reading)} {k : Nat} (v : Reading)
    (h : m.any (fun p => p.1 == k) = false) :
    mapSet m k v = m ++ [(k, v)] := by
  unfold mapSet
  rw [h]
  simp

theorem goodMap_mapSet {m : List (Nat × Reading)} {k : Nat} {v : Reading}
    (hg : goodMap m) (hv : v.id = k) (hk : k ≠ 0) : goodMap (mapSet m k v) := by
  cases h : m.any (fun p => p.1 == k) with
  | true =>
    rw [mapSet_eq_replace v h]
    refine ⟨?_, ?_⟩
    · rw [keysOf_map_replace]; exact hg.1
    · intro p hp
      rcases List.mem_map.mp hp with ⟨q, hq, hfq⟩
      by_cases hqk : q.1 = k
      · simp only [hqk, beq_self_eq_true, if_true] at hfq
        rw [← hfq]; exact ⟨hv, hk⟩
      · have : ¬(q.1 == k) = true := by simp [hqk]
        rw [if_neg this] at hfq
        rw [← hfq]; exact hg.2 q hq
  | false =>
    rw [mapSet_eq_append v h]
    have hknot : k ∉ keysOf m := by
      intro hmem
      rcases List.mem_map.mp hmem with ⟨p, hp, hpk⟩
      rw [List.any_eq_false] at h
      exact (h p hp) (by simp [hpk])
    refine ⟨?_, ?_⟩
    · have hkeys : keysOf (m ++ [(k, v)]) = keysOf m ++ [k] := by simp [keysOf]
      rw [hkeys, List.nodup_append]
      exact ⟨hg.1, List.nodup_singleton k, by
        intro a ha hb
        simp only [List.mem_singleton] at hb
        exact hknot (hb ▸ ha)⟩
    · intro p hp
      rcases List.mem_append.mp hp with hp | hp
      · exact hg.2 p hp
      · simp only [List.mem_singleton] at hp
        rw [hp]; exact ⟨hv, hk⟩

theorem lookupId_mapSet_self (m : List (Nat × Reading)) (k : Nat) (v : Reading) :
    lookupId (mapSet m k v) k = some v := by
  cases h : m.any (fun p => p.1 == k) with
  | true =>
    rw [mapSet_eq_replace v h]
    unfold lookupId
    rw [List.find?_map]
    have hpred : ((fun p : Nat × Reading => p.1 == k) ∘
        (fun p : Nat × Reading => if p.1 == k then (k, v) else p)) =
        (fun p : Nat × Reading => p.1 == k) := by
      funext p
      by_cases hpk : p.1 = k
      · simp [hpk]
      · simp [hpk]
    rw [hpred]
    rcases List.any_eq_true.mp h with ⟨p, hp, hpk⟩
    have hsome : (List.find? (fun p : Nat × Reading => p.1 == k) m).isSome := by
      rw [List.find?_isSome]; exact ⟨p, hp, hpk⟩
    rcases Option.isSome_iff_exists.mp hsome with ⟨q, hq⟩
    have hqk := List.find?_some hq
    rw [hq]
    have hqk2 : q.1 = k := by simpa using hqk
    simp [hqk2]
  | false =>
    rw [mapSet_eq_append v h]
    unfold lookupId
    rw [List.find?_append]
    have hnone : List.find? (fun p : Nat × Reading => p.1 == k) m = none := by
      rw [List.find?_eq_none]
      intro p hp
      rw [List.any_eq_false] at h
      exact h p hp
    rw [hnone]
    have h3 : List.find? (fun p : Nat × Reading => p.1 == k) [(k, v)] = some (k, v) := by
      rw [List.find?_cons_of_pos]
      simp
    rw [h3]
    rfl

theorem lookupId_mapSet_ne (m : List (Nat × Reading)) (k : Nat) (v : Reading)
    {j : Nat} (hj : j ≠ k) : lookupId (mapSet m k v) j = lookupId m j := by
  cases h : m.any (fun p => p.1 == k) with
  | true =>
    rw [mapSet_eq_replace v h]
    unfold lookupId
    rw [List.find?_map]
    have hpred : ((fun p : Nat × Reading => p.1 == j) ∘
        (fun p : Nat × Reading => if p.1 == k then (k, v) else p)) =
        (fun p : Nat × Reading => p.1 == j) := by
      funext p
      by_cases hpk : p.1 = k
      · simp [hpk, Ne.symm hj]
      · simp [hpk]
    rw [hpred]
    cases hf : List.find? (fun p : Nat × Reading => p.1 == j) m with
    | none => simp
    | some q =>
      have hqj : q.1 = j := by simpa using List.find?_some hf
      have hqk : ¬q.1 = k := by simp [hqj]; exact hj
      simp [hqk]
  | false =>
    rw [mapSet_eq_append v h]
    unfold lookupId
    rw [List.find?_append]
    have h2 : List.find? (fun p : Nat × Reading => p.1 == j) [(k, v)] = none := by
      rw [@List.find?_cons_of_neg (Nat × Reading) (fun p => p.1 == j) (k, v) [] (by simp [Ne.symm hj])]
      rfl
    rw [h2]
    cases List.find? (fun p : Nat × Reading => p.1 == j) m <;> rfl

theorem goodMap_addReading {m : List (Nat × Reading)} (hg : goodMap m) (r : Reading) :
    goodMap (addReading m r) := by
  unfold addReading
  by_cases h : r.id ≠ 0
  · rw [if_pos h]
    exact goodMap_mapSet hg rfl h
  · rw [if_neg h]
    exact hg

theorem goodMap_foldl {m : List (Nat × Reading)} (hg : goodMap m) (l : List Reading) :
    goodMap (l.foldl addReading m) := by
  induction l generalizing m with
  | nil => exact hg
  | cons r l ih => exact ih (goodMap_addReading hg r)

theorem lookupId_addReading (m : List (Nat × Reading)) (r : Reading) {k : Nat}
    (hk : k ≠ 0) :
    lookupId (addReading m r) k = if r.id = k then some r else lookupId m k := by
  unfold addReading
  by_cases h : r.id ≠ 0
  · rw [if_pos h]
    by_cases hrk : r.id = k
    · rw [if_pos hrk, hrk, lookupId_mapSet_self]
    · rw [if_neg hrk, lookupId_mapSet_ne]
      exact fun hkr => hrk hkr.symm
  · rw [if_neg h]
    push_neg at h
    have hrk : r.id ≠ k := by rw [h]; exact fun h0 => hk h0.symm
    rw [if_neg hrk]

theorem foldl_lastWith_step (l : List Reading) (k : Nat) :
    ∀ a : Option Reading,
      l.foldl (fun acc r => if r.id = k then some r else acc) a = (lastWith l k).or a := by
  induction l with
  | nil => intro a; simp [lastWith]
  | cons r l ih =>
    intro a
    have h1 : lastWith (r :: l) k =
        (lastWith l k).or (if r.id = k then some r else none) := by
      unfold lastWith
      rw [List.foldl_cons, ih (if r.id = k then some r else none)]
      rfl
    rw [List.foldl_cons, ih, h1]
    cases hlw : lastWith l k with
    | some v => rfl
    | none =>
      simp only [Option.none_or]
      by_cases hrk : r.id = k <;> simp [hrk]

theorem lookupId_foldl_addReading (l : List Reading) (m : List (Nat × Reading))
    {k : Nat} (hk : k ≠ 0) :
    lookupId (l.foldl addReading m) k = (lastWith l k).or (lookupId m k) := by
  induction l generalizing m with
  | nil => simp [lastWith]
  | cons r l ih =>
    rw [List.foldl_cons, ih, lookupId_addReading m r hk]
    have h1 : lastWith (r :: l) k =
        (lastWith l k).or (if r.id = k then some r else none) := by
      unfold lastWith
      rw [List.foldl_cons, foldl_lastWith_step l k (if r.id = k then some r else none)]
      rfl
    rw [h1]
    cases hlw : lastWith l k with
    | some v => rfl
    | none =>
      simp only [Option.none_or]
      by_cases hrk : r.id = k <;> simp [hrk]

theorem lookupId_eq_of_mem {m : List (Nat × Reading)} {k : Nat} {r : Reading}
    (hnd : (keysOf m).Nodup) (hm : (k, r) ∈ m) : lookupId m k = some r := by
  induction m with
  | nil => cases hm
  | cons q m ih =>
    have hnd' : q.1 ∉ keysOf m ∧ (keysOf m).Nodup := by
      have : keysOf (q :: m) = q.1 :: keysOf m := rfl
      rw [this, List.nodup_cons] at hnd
      exact hnd
    rcases List.mem_cons.mp hm with hq | hm'
    · rw [← hq]
      simp [lookupId, List.find?]
    · have hkm : k ∈ keysOf m := List.mem_map.mpr ⟨(k, r), hm', rfl⟩
      have hqk : ¬(q.1 == k) = true := by
        simp only [beq_iff_eq]
        intro hq1
        exact hnd'.1 (hq1 ▸ hkm)
      unfold lookupId
      rw [@List.find?_cons_of_neg (Nat × Reading) (fun p => p.1 == k) q m hqk]
      exact ih hnd'.2 hm'

theorem mem_values_lookupId {m : List (Nat × Reading)} {r : Reading}
    (hg : goodMap m) (hr : r ∈ m.map Prod.snd) : lookupId m r.id = some r := by
  rcases List.mem_map.mp hr with ⟨p, hp, hpr⟩
  rcases p with ⟨a, b⟩
  have hb : b = r := hpr
  subst hb
  have hid : b.id = a := (hg.2 (a, b) hp).1
  have hmem : (b.id, b) ∈ m := by rw [hid]; exact hp
  exact lookupId_eq_of_mem hg.1 hmem

theorem countP_values_eq_count {m : List (Nat × Reading)} (k : Nat)
    (hids : ∀ p ∈ m, p.2.id = p.1) :
    (m.map Prod.snd).countP (fun r => r.id == k) = (keysOf m).count k := by
  rw [List.count_eq_countP, keysOf, List.countP_map, List.countP_map]
  apply List.countP_congr
  intro p hp
  simp only [Function.comp_apply, beq_iff_eq]
  rw [hids p hp]

theorem length_addReading (m : List (Nat × Reading)) (r : Reading) :
    (addReading m r).length ≤ m.length + 1 := by
  unfold addReading
  by_cases h : r.id ≠ 0
  · rw [if_pos h]
    cases h2 : m.any (fun p => p.1 == r.id) with
    | true => rw [mapSet_eq_replace r h2]; simp
    | false => rw [mapSet_eq_append r h2]; simp
  · rw [if_neg h]
    omega

theorem length_foldl_addReading (l : List Reading) (m : List (Nat × Reading)) :
    (l.foldl addReading m).length ≤ m.length + l.length := by
  induction l generalizing m with
  | nil => simp
  | cons r l ih =>
    rw [List.foldl_cons]
    calc (l.foldl addReading (addReading m r)).length
        ≤ (addReading m r).length + l.length := ih (addReading m r)
      _ ≤ m.length + 1 + l.length := by
          have := length_addReading m r
          omega
      _ = m.length + (r :: l).length := by simp; omega

theorem lastWith_isSome {l : List Reading} {k : Nat} {r : Reading}
    (hr : r ∈ l) (hid : r.id = k) : (lastWith l k).isSome := by
  induction l with
  | nil => cases hr
  | cons q l ih =>
    have h1 : lastWith (q :: l) k =
        (lastWith l k).or (if q.id = k then some q else none) := by
      unfold lastWith
      rw [List.foldl_cons, foldl_lastWith_step l k (if q.id = k then some q else none)]
      rfl
    rw [h1]
    rcases List.mem_cons.mp hr with hq | hm
    · cases hlw : lastWith l k with
      | some v => rfl
      | none => simp [← hq, hid]
    · have := ih hm
      cases hlw : lastWith l k with
      | some v => rfl
      | none => rw [hlw] at this; cases this

/-! ## Lemmas on the stride sampler -/

theorem strideAux_skip (s : Nat) :
    ∀ (l : List Reading) (c : Nat), strideAux s c l = strideAux s 0 (l.drop c) := by
  intro l
  induction l with
  | nil => intro c; cases c <;> rfl
  | cons x xs ih =>
    intro c
    cases c with
    | zero => rfl
    | succ c =>
      show strideAux s c xs = strideAux s 0 ((x :: xs).drop (c + 1))
      rw [List.drop_succ_cons]
      exact ih c

theorem strideSample_cons (s : Nat) (x : Reading) (xs : List Reading) :
    strideSample s (x :: xs) = x :: strideSample s (xs.drop (s - 1)) := by
  unfold strideSample
  show x :: strideAux s (s - 1) xs = _
  rw [strideAux_skip s xs (s - 1)]

theorem strideSample_getElem (s : Nat) (hs : 1 ≤ s) :
    ∀ (j : Nat) (l : List Reading), (strideSample s l)[j]? = l[j * s]? := by
  intro j
  induction j with
  | zero =>
    intro l
    cases l with
    | nil => rfl
    | cons x xs => rw [strideSample_cons]; simp
  | succ j ih =>
    intro l
    cases l with
    | nil => rfl
    | cons x xs =>
      rw [strideSample_cons]
      have h1 : (x :: strideSample s (xs.drop (s - 1)))[j + 1]? =
          (strideSample s (xs.drop (s - 1)))[j]? := List.getElem?_cons_succ
      rw [h1, ih (xs.drop (s - 1)), List.getElem?_drop]
      have hmul : (j + 1) * s = j * s + s := by ring
      have h2 : (x :: xs)[(j + 1) * s]? = xs[(j + 1) * s - 1]? := by
        have h3 : (j + 1) * s = ((j + 1) * s - 1) + 1 := by
          have h4 : 0 < (j + 1) * s := Nat.mul_pos (Nat.succ_pos j) hs
          omega
        rw [h3]
        exact List.getElem?_cons_succ
      rw [h2]
      congr 1
      rw [hmul]
      omega

theorem strideSample_ne_nil (s : Nat) {l : List Reading} (h : l ≠ []) :
    strideSample s l ≠ [] := by
  cases l with
  | nil => exact absurd rfl h
  | cons x xs => rw [strideSample_cons]; exact List.cons_ne_nil x _

/-! ## Shape lemmas on `mergeReadings` -/

theorem mergeReadings_nil (old : List Reading) : mergeReadings old [] = old := rfl

theorem mergeReadings_eq_of_ne_nil (old : List Reading) {incoming : List Reading}
    (h : incoming ≠ []) :
    mergeReadings old incoming =
      (List.insertionSort tsGE
        ((incoming.foldl addReading (old.foldl addReading [])).map Prod.snd)).take
        maxReadings := by
  unfold mergeReadings
  rw [if_neg]
  simp [List.isEmpty_iff, h]

theorem mergeReadings_length_le (old incoming : List Reading)
    (h : old.length ≤ maxReadings) :
    (mergeReadings old incoming).length ≤ maxReadings := by
  by_cases hinc : incoming = []
  · rw [hinc, mergeReadings_nil]; exact h
  · rw [mergeReadings_eq_of_ne_nil old hinc, List.length_take]
    exact min_le_left _ _

/-- Helper for C3: iterated merges stay within capacity. -/
theorem foldl_mergeReadings_bounded (batches : List (List Reading)) :
    ∀ old : List Reading, old.length ≤ maxReadings →
      (batches.foldl mergeReadings old).length ≤ maxReadings := by
  induction batches with
  | nil => intro old h; exact h
  | cons b bs ih =>
    intro old h
    exact ih (mergeReadings old b) (mergeReadings_length_le old b h)

/-! ## Claim theorems -/

/-- C2, counterexample: `merge_recent(X, []) == trim(X)` fails.  For a list
of 481 readings, `mergeReadings X []` returns `X` unchanged (481 entries),
while `trim X` caps it at the capacity 480. -/
theorem c2_counterexample :
    mergeReadings (List.replicate 481 (⟨1, none, 0, 0⟩ : Reading)) []
      ≠ trim (List.replicate 481 (⟨1, none, 0, 0⟩ : Reading)) := by
  intro h
  have hlen := congrArg List.length h
  rw [mergeReadings_nil] at hlen
  simp only [trim, List.length_take, List.length_replicate] at hlen
  revert hlen
  decide

/-- C2 (amended): merging any list `X` with an empty incoming list returns
`X` unchanged — no trimming, deduplication or re-sorting is applied; in
particular `merge_recent(X, []) = trim(X)` holds exactly on lists already
within capacity (`len(X) ≤ 480`). -/
theorem mergeReadings_empty_incoming (X : List Reading) :
    mergeReadings X [] = X ∧
      (X.length ≤ maxReadings → mergeReadings X [] = trim X) := by
  refine ⟨rfl, fun h => ?_⟩
  rw [mergeReadings_nil, trim, List.take_of_length_le h]

/-- C2 witness: the amended claim at a concrete one-element list. -/
theorem c2_witness :
    mergeReadings [(⟨1, none, 5, 0⟩ : Reading)] [] = [(⟨1, none, 5, 0⟩ : Reading)] ∧
      mergeReadings [(⟨1, none, 5, 0⟩ : Reading)] [] = trim [(⟨1, none, 5, 0⟩ : Reading)] :=
  ⟨(mergeReadings_empty_incoming [⟨1, none, 5, 0⟩]).1,
   (mergeReadings_empty_incoming [⟨1, none, 5, 0⟩]).2 (by decide)⟩

/-- C3 (confirmed): starting from a recent list within the capacity
`perDeviceCap × maxDevices = 120 × 4 = 480`, every single `mergeReadings`
call and every sequence of such merges yields a list of length at most 480
(`maxReadings = CONFIG_recentReadingsLimit * CONFIG_maxDevices`). -/
theorem mergeReadings_bounded (old : List Reading) (h : old.length ≤ maxReadings) :
    (∀ incoming, (mergeReadings old incoming).length ≤ maxReadings) ∧
      (∀ batches : List (List Reading),
        (batches.foldl mergeReadings old).length ≤ maxReadings) :=
  ⟨fun incoming => mergeReadings_length_le old incoming h,
   fun batches => foldl_mergeReadings_bounded batches old h⟩

/-- C3 witness: the bound at a concrete starting list and batch sequence. -/
theorem c3_witness :
    (mergeReadings [] [(⟨1, none, 5, 0⟩ : Reading)]).length ≤ maxReadings ∧
      ([[(⟨1, none, 5, 0⟩ : Reading)], []].foldl mergeReadings []).length ≤ maxReadings :=
  ⟨(mergeReadings_bounded [] (by decide)).1 [⟨1, none, 5, 0⟩],
   (mergeReadings_bounded [] (by decide)).2 [[⟨1, none, 5, 0⟩], []]⟩

/-- C10 (confirmed): when `incoming` is non-empty, every entry of the merged
result carries a truthy id (readings with an absent/falsy id are silently
dropped from both inputs); when `incoming` is empty, `old` is returned
as-is, id-less readings included. -/
theorem mergeReadings_drops_idless (old incoming : List Reading) (h : incoming ≠ []) :
    (∀ r ∈ mergeReadings old incoming, r.id ≠ 0) ∧ mergeReadings old [] = old := by
  refine ⟨?_, rfl⟩
  intro r hr
  rw [mergeReadings_eq_of_ne_nil old h] at hr
  have hr2 := (List.take_sublist _ _).subset hr
  have hr3 : r ∈ (incoming.foldl addReading (old.foldl addReading [])).map Prod.snd :=
    (List.perm_insertionSort tsGE _).mem_iff.mp hr2
  have hg : goodMap (incoming.foldl addReading (old.foldl addReading [])) :=
    goodMap_foldl (goodMap_foldl goodMap_nil old) incoming
  rcases List.mem_map.mp hr3 with ⟨p, hp, hpr⟩
  have h2 := hg.2 p hp
  rw [← hpr]
  rw [h2.1]
  exact h2.2

/-- C10 witness: a list with an id-less reading, merged with a non-empty and
with an empty incoming list. -/
theorem c10_witness :
    (∀ r ∈ mergeReadings [(⟨0, none, 5, 1⟩ : Reading)] [(⟨2, none, 4, 3⟩ : Reading)],
        r.id ≠ 0) ∧
      mergeReadings [(⟨0, none, 5, 1⟩ : Reading)] [] = [(⟨0, none, 5, 1⟩ : Reading)] :=
  mergeReadings_drops_idless [⟨0, none, 5, 1⟩] [⟨2, none, 4, 3⟩] (by decide)

/-- C9 (confirmed): for a positive budget `m`, `downsampleReadings` returns
lists within the budget unchanged; on longer lists it selects every `K`-th
element starting at index 0 with `K = ceil(len/m)` (the `j`-th output element
is the input element at index `j·K`), and its output always ends with the
last element of the input. -/
theorem downsampleReadings_spec (l : List Reading) (m : Nat) (hm : 0 < m) :
    (l.length ≤ m → downsampleReadings l m = l) ∧
      (m < l.length →
        (∀ j : Nat, j * ((l.length + m - 1) / m) < l.length →
            (downsampleReadings l m)[j]? = l[j * ((l.length + m - 1) / m)]?) ∧
        (downsampleReadings l m).getLast? = l.getLast?) := by
  constructor
  · intro h
    unfold downsampleReadings
    rw [if_pos h]
  · intro hlt
    have hne : ¬ l.length ≤ m := not_le.mpr hlt
    have hK : 1 ≤ (l.length + m - 1) / m := by
      rw [Nat.le_div_iff_mul_le hm]
      omega
    have hlnil : l ≠ [] := List.length_pos.mp (by omega)
    obtain ⟨a, ha⟩ := Option.isSome_iff_exists.mp (List.getLast?_isSome.mpr hlnil)
    simp only [downsampleReadings]
    rw [if_neg hne]
    by_cases hif :
        (strideSample ((l.length + m - 1) / m) l).getLast? = l.getLast?
    · rw [if_pos hif]
      exact ⟨fun j _ => strideSample_getElem _ hK j l, hif⟩
    · rw [if_neg hif]
      constructor
      · intro j hj
        have hs := strideSample_getElem ((l.length + m - 1) / m) hK j l
        have hsome : l[j * ((l.length + m - 1) / m)]? =
            some (l.get ⟨j * ((l.length + m - 1) / m), hj⟩) := by
          rw [List.getElem?_eq_getElem hj]
          rfl
        have hjlt : j < (strideSample ((l.length + m - 1) / m) l).length := by
          have h2 := hs.trans hsome
          exact (List.getElem?_eq_some_iff.mp h2).1
        rw [List.getElem?_append]
        rw [if_pos hjlt]
        exact hs
      · rw [ha]
        simp only [Option.toList_some]
        rw [List.getLast?_concat]

/-- C9 witness: the sampler at a two-element list with budget 5 (returned
unchanged) and a five-element list with budget 2 (stride 3: indices 0 and 3,
plus the forced last element). -/
theorem c9_witness :
    downsampleReadings [(⟨1, none, 1, 0⟩ : Reading), ⟨2, none, 2, 0⟩] 5
        = [(⟨1, none, 1, 0⟩ : Reading), ⟨2, none, 2, 0⟩] ∧
      (downsampleReadings [(⟨1, none, 1, 0⟩ : Reading), ⟨2, none, 2, 0⟩, ⟨3, none, 3, 0⟩,
          ⟨4, none, 4, 0⟩, ⟨5, none, 5, 0⟩] 2)[1]?
        = [(⟨1, none, 1, 0⟩ : Reading), ⟨2, none, 2, 0⟩, ⟨3, none, 3, 0⟩,
          ⟨4, none, 4, 0⟩, ⟨5, none, 5, 0⟩][3]? ∧
      (downsampleReadings [(⟨1, none, 1, 0⟩ : Reading), ⟨2, none, 2, 0⟩, ⟨3, none, 3, 0⟩,
          ⟨4, none, 4, 0⟩, ⟨5, none, 5, 0⟩] 2).getLast?
        = [(⟨1, none, 1, 0⟩ : Reading), ⟨2, none, 2, 0⟩, ⟨3, none, 3, 0⟩,
          ⟨4, none, 4, 0⟩, ⟨5, none, 5, 0⟩].getLast? :=
  ⟨(downsampleReadings_spec [⟨1, none, 1, 0⟩, ⟨2, none, 2, 0⟩] 5 (by decide)).1 (by decide),
   ((downsampleReadings_spec [⟨1, none, 1, 0⟩, ⟨2, none, 2, 0⟩, ⟨3, none, 3, 0⟩,
       ⟨4, none, 4, 0⟩, ⟨5, none, 5, 0⟩] 2 (by decide)).2 (by decide)).1 1 (by decide),
   ((downsampleReadings_spec [⟨1, none, 1, 0⟩, ⟨2, none, 2, 0⟩, ⟨3, none, 3, 0⟩,
       ⟨4, none, 4, 0⟩, ⟨5, none, 5, 0⟩] 2 (by decide)).2 (by decide)).2⟩

/-- C1 (amended): for a truthy id `k` occurring in both `old` and
`incoming`, the merged result contains at most one entry with id `k`, and
any such entry is exactly the incoming version (the last entry of `incoming`
carrying id `k`); when the inputs fit within capacity
(`len(old) + len(incoming) ≤ 480`) the entry is present, i.e. the count is
exactly one. -/
theorem mergeReadings_dedup (old incoming : List Reading) (k : Nat) (hk : k ≠ 0)
    (hold : ∃ r ∈ old, r.id = k) (hinc : ∃ r ∈ incoming, r.id = k) :
    ((mergeReadings old incoming).countP (fun r => r.id == k) ≤ 1
        ∧ ∀ r ∈ mergeReadings old incoming, r.id = k → lastWith incoming k = some r)
      ∧ (old.length + incoming.length ≤ maxReadings →
          (mergeReadings old incoming).countP (fun r => r.id == k) = 1) := by
  obtain ⟨ri, hri, hrik⟩ := hinc
  have hincne : incoming ≠ [] := by
    intro h
    rw [h] at hri
    cases hri
  have hmerge := mergeReadings_eq_of_ne_nil old hincne
  have hg1 : goodMap (old.foldl addReading []) := goodMap_foldl goodMap_nil old
  have hg2 : goodMap (incoming.foldl addReading (old.foldl addReading [])) :=
    goodMap_foldl hg1 incoming
  obtain ⟨v, hv⟩ := Option.isSome_iff_exists.mp (lastWith_isSome hri hrik)
  have hlook : lookupId (incoming.foldl addReading (old.foldl addReading [])) k = some v := by
    rw [lookupId_foldl_addReading incoming _ hk, hv]
    rfl
  have hkmem : k ∈ keysOf (incoming.foldl addReading (old.foldl addReading [])) := by
    unfold lookupId at hlook
    cases hf : (incoming.foldl addReading (old.foldl addReading [])).find?
        (fun p => p.1 == k) with
    | none => rw [hf] at hlook; cases hlook
    | some q =>
      have hq1 : q.1 = k := by simpa using List.find?_some hf
      exact List.mem_map.mpr ⟨q, List.mem_of_find?_eq_some hf, hq1⟩
  have hcountv : ((incoming.foldl addReading (old.foldl addReading [])).map
      Prod.snd).countP (fun r => r.id == k) = 1 := by
    rw [countP_values_eq_count k (fun p hp => (hg2.2 p hp).1)]
    exact List.count_eq_one_of_mem hg2.1 hkmem
  have hperm := List.perm_insertionSort tsGE
    ((incoming.foldl addReading (old.foldl addReading [])).map Prod.snd)
  have hsortcount : (List.insertionSort tsGE
      ((incoming.foldl addReading (old.foldl addReading [])).map Prod.snd)).countP
      (fun r => r.id == k) = 1 := by
    rw [hperm.countP_eq]
    exact hcountv
  refine ⟨⟨?_, ?_⟩, ?_⟩
  · rw [hmerge]
    exact le_of_le_of_eq ((List.take_sublist _ _).countP_le _) hsortcount
  · intro r hr hrk
    rw [hmerge] at hr
    have hr2 := (List.take_sublist _ _).subset hr
    have hr3 := hperm.mem_iff.mp hr2
    have hlr := mem_values_lookupId hg2 hr3
    rw [hrk] at hlr
    rw [hlook] at hlr
    injection hlr with hvr
    rw [hv, hvr]
  · intro hlen
    have h1 := length_foldl_addReading incoming (old.foldl addReading [])
    have h2 := length_foldl_addReading old ([] : List (Nat × Reading))
    have hsortlen : (List.insertionSort tsGE
        ((incoming.foldl addReading (old.foldl addReading [])).map Prod.snd)).length
        ≤ maxReadings := by
      rw [hperm.length_eq, List.length_map]
      simp only [List.length_nil] at h2
      omega
    rw [hmerge, List.take_of_length_le hsortlen]
    exact hsortcount

/-- C1 witness: a concrete id collision (id 2 in both lists, within
capacity) where the merged list keeps exactly the incoming version. -/
theorem c1_witness :
    ((mergeReadings [(⟨1, none, 100, 0⟩ : Reading), ⟨2, none, 200, 0⟩]
        [(⟨2, none, 210, 5⟩ : Reading), ⟨3, none, 300, 0⟩]).countP
        (fun r => r.id == 2) ≤ 1
      ∧ ∀ r ∈ mergeReadings [(⟨1, none, 100, 0⟩ : Reading), ⟨2, none, 200, 0⟩]
          [(⟨2, none, 210, 5⟩ : Reading), ⟨3, none, 300, 0⟩],
          r.id = 2 → lastWith [(⟨2, none, 210, 5⟩ : Reading), ⟨3, none, 300, 0⟩] 2 = some r)
    ∧ (mergeReadings [(⟨1, none, 100, 0⟩ : Reading), ⟨2, none, 200, 0⟩]
        [(⟨2, none, 210, 5⟩ : Reading), ⟨3, none, 300, 0⟩]).countP
        (fun r => r.id == 2) = 1 := by
  have h := mergeReadings_dedup [⟨1, none, 100, 0⟩, ⟨2, none, 200, 0⟩]
    [⟨2, none, 210, 5⟩, ⟨3, none, 300, 0⟩] 2 (by decide)
    ⟨⟨2, none, 200, 0⟩, by decide, rfl⟩ ⟨⟨2, none, 210, 5⟩, by decide, rfl⟩
  exact ⟨h.1, h.2 (by decide)⟩

/-- Counterexample inputs for C1: 481 readings with distinct truthy ids
`1..481` and strictly descending timestamps, and one incoming reading
colliding with the oldest id (481) at an even older timestamp. -/
def ceReadingOld (i : Nat) : Reading := ⟨i + 1, none, 100000 - (i : Int), 0⟩

/-- The 481-entry old list of the C1 counterexample. -/
def ceOld : List Reading := (List.range 481).map ceReadingOld

/-- The colliding incoming reading of the C1 counterexample. -/
def ceNew : Reading := ⟨481, none, 0, 1⟩

/-- The merged map values of the C1 counterexample, in insertion order. -/
def ceVals : List Reading :=
  (List.range 481).map (fun i => if i = 480 then ceNew else ceReadingOld i)

/-- A left fold of `addReading` over readings with fresh distinct truthy ids
just appends the corresponding map entries. -/
theorem foldl_addReading_of_disjoint :
    ∀ (l : List Reading) (m : List (Nat × Reading)),
      (∀ r ∈ l, r.id ≠ 0) → (l.map Reading.id).Nodup →
      (∀ r ∈ l, r.id ∉ keysOf m) →
      l.foldl addReading m = m ++ l.map (fun r => (r.id, r)) := by
  intro l
  induction l with
  | nil => intro m _ _ _; simp
  | cons r l ih =>
    intro m h0 hnd hdis
    have hr0 : r.id ≠ 0 := h0 r (List.mem_cons_self r l)
    have hany : m.any (fun p => p.1 == r.id) = false := by
      rw [List.any_eq_false]
      intro p hp
      simp only [beq_iff_eq]
      intro hpk
      exact hdis r (List.mem_cons_self r l) (List.mem_map.mpr ⟨p, hp, hpk⟩)
    have hadd : addReading m r = m ++ [(r.id, r)] := by
      unfold addReading
      rw [if_pos hr0, mapSet_eq_append r hany]
    have hndl : (l.map Reading.id).Nodup := (List.nodup_cons.mp hnd).2
    have hrnotl : r.id ∉ l.map Reading.id := (List.nodup_cons.mp hnd).1
    rw [List.foldl_cons, hadd, ih (m ++ [(r.id, r)])
      (fun r' hr' => h0 r' (List.mem_cons_of_mem r hr')) hndl ?hdis2]
    · simp
    case hdis2 =>
      intro r' hr'
      have hkeys : keysOf (m ++ [(r.id, r)]) = keysOf m ++ [r.id] := by simp [keysOf]
      rw [hkeys]
      intro hmem
      rcases List.mem_append.mp hmem with hmem | hmem
      · exact hdis r' (List.mem_cons_of_mem r hr') hmem
      · simp only [List.mem_singleton] at hmem
        exact hrnotl (hmem ▸ List.mem_map.mpr ⟨r', hr', rfl⟩)

/-- Folding the counterexample lists produces exactly `ceVals`. -/
theorem ceMerge_values :
    (([ceNew].foldl addReading (ceOld.foldl addReading [])).map Prod.snd) = ceVals := by
  have hids : ceOld.map Reading.id = (List.range 481).map (fun i => i + 1) := by
    rw [ceOld, List.map_map]
    rfl
  have hfold : ceOld.foldl addReading [] = ceOld.map (fun r => (r.id, r)) := by
    rw [foldl_addReading_of_disjoint ceOld [] ?h0 ?hnd (by simp [keysOf])]
    · simp
    case h0 =>
      intro r hr
      rcases List.mem_map.mp hr with ⟨i, _, hir⟩
      rw [← hir]
      simp [ceReadingOld]
    case hnd =>
      rw [hids]
      exact (List.nodup_range 481).map (fun a b h => by omega)
  have hm1 : ceOld.map (fun r => (r.id, r)) =
      (List.range 481).map (fun i => (i + 1, ceReadingOld i)) := by
    rw [ceOld, List.map_map]
    rfl
  have hany : (ceOld.map (fun r => (r.id, r))).any (fun p => p.1 == (481 : Nat)) = true := by
    rw [List.any_eq_true]
    refine ⟨(481, ceReadingOld 480), ?_, by simp⟩
    rw [hm1]
    exact List.mem_map.mpr ⟨480, by simp [List.mem_range], rfl⟩
  rw [List.foldl_cons, List.foldl_nil, hfold]
  have hstep : addReading (ceOld.map (fun r => (r.id, r))) ceNew =
      (ceOld.map (fun r => (r.id, r))).map
        (fun p => if p.1 == (481 : Nat) then (481, ceNew) else p) := by
    unfold addReading
    rw [if_pos (by simp [ceNew]), mapSet_eq_replace ceNew ?_]
    · rfl
    · exact hany
  rw [hstep, hm1, List.map_map, List.map_map, ceVals]
  apply List.map_congr_left
  intro i _
  by_cases hi : i = 480
  · subst hi
    simp [ceReadingOld]
  · have h1 : ¬ (i + 1 = 481) := by omega
    simp only [Function.comp_apply, ceReadingOld]
    rw [if_neg (by simpa using h1), if_neg hi]

/-- `ceVals` is already sorted by timestamp descending. -/
theorem ceVals_sorted : List.Sorted tsGE ceVals := by
  unfold ceVals
  rw [List.Sorted, List.pairwise_iff_getElem]
  intro i j hi hj hij
  rw [List.length_map, List.length_range] at hi hj
  simp only [List.getElem_map, List.getElem_range]
  unfold tsGE
  have hts : ∀ n : Nat, tsOf (if n = 480 then ceNew else ceReadingOld n) =
      if n = 480 then 0 else 100000 - (n : Int) := by
    intro n
    by_cases hn : n = 480
    · simp [hn, ceNew, tsOf]
    · simp [hn, ceReadingOld, tsOf]
  rw [hts i, hts j]
  have hi480 : i ≠ 480 := by omega
  rw [if_neg hi480]
  by_cases hj480 : j = 480
  · rw [if_pos hj480]
    omega
  · rw [if_neg hj480]
    omega

/-- C1, counterexample: id 481 occurs (truthy) in both `ceOld` (481 entries)
and the incoming singleton `[ceNew]`, yet the merged result contains zero
entries with id 481 — the trim to capacity 480 dropped the colliding
incoming reading, so "exactly one entry" fails. -/
theorem c1_counterexample :
    (∃ r ∈ ceOld, r.id = 481) ∧ (∃ r ∈ [ceNew], r.id = 481) ∧
      (mergeReadings ceOld [ceNew]).countP (fun r => r.id == 481) = 0 := by
  refine ⟨⟨ceReadingOld 480, ?_, rfl⟩, ⟨ceNew, List.mem_singleton_self ceNew, rfl⟩, ?_⟩
  · exact List.mem_map.mpr ⟨480, by simp [List.mem_range], rfl⟩
  · rw [mergeReadings_eq_of_ne_nil ceOld (by simp), ceMerge_values,
      List.Sorted.insertionSort_eq ceVals_sorted]
    have hmax : maxReadings = 480 := rfl
    rw [hmax, ceVals, ← List.map_take, List.take_range]
    rw [List.countP_eq_zero]
    intro r hr
    rcases List.mem_map.mp hr with ⟨i, hi, hir⟩
    have hilt : i < 480 := by
      have h1 : min 480 481 = 480 := by decide
      rw [h1, List.mem_range] at hi
      exact hi
    rw [← hir, if_neg (by omega)]
    simp [ceReadingOld]
    omega

/-! ## Storage lemmas and the persistence/sync claims -/

/-- Unfolding a successful `loadFromLocalStorage`. -/
theorem loadFromLocalStorage_some {userId : String} {store : Storage} {c : CachedRecord}
    (h : loadFromLocalStorage userId store = some c) :
    userId ≠ "" ∧ getItem store (getLocalStorageKey userId) = some c ∧
      c.user_id = userId := by
  unfold loadFromLocalStorage at h
  by_cases hu : userId = ""
  · rw [if_pos hu] at h; cases h
  · rw [if_neg hu] at h
    cases hg : getItem store (getLocalStorageKey userId) with
    | none =>
      simp only [hg] at h
      exact Option.noConfusion h
    | some d =>
      simp only [hg] at h
      by_cases hd : d.user_id = userId
      · rw [if_pos hd] at h
        injection h with h2
        subst h2
        exact ⟨hu, rfl, hd⟩
      · rw [if_neg hd] at h; cases h

/-- A present key makes the `any` scan of `setItemOk`/`setItem` succeed. -/
theorem any_of_getItem {store : Storage} {key : String} {c : CachedRecord}
    (h : getItem store key = some c) :
    store.any (fun p => p.1 == key) = true := by
  unfold getItem at h
  cases hf : store.find? (fun p => p.1 == key) with
  | none => rw [hf] at h; cases h
  | some q =>
    have hpq := List.find?_some hf
    rw [List.any_eq_true]
    exact ⟨q, List.mem_of_find?_eq_some hf, hpq⟩

/-- `setItem` followed by `getItem` on the same key returns the new value. -/
theorem getItem_setItem_self (store : Storage) (key : String) (v : CachedRecord) :
    getItem (setItem store key v) key = some v := by
  cases h : store.any (fun p => p.1 == key) with
  | true =>
    have hrepl : setItem store key v =
        store.map (fun p => if p.1 == key then (key, v) else p) := by
      unfold setItem
      rw [h]
      simp
    rw [hrepl]
    unfold getItem
    rw [List.find?_map]
    have hpred : ((fun p : String × CachedRecord => p.1 == key) ∘
        (fun p : String × CachedRecord => if p.1 == key then (key, v) else p)) =
        (fun p : String × CachedRecord => p.1 == key) := by
      funext p
      by_cases hpk : p.1 = key
      · simp [hpk]
      · simp [hpk]
    rw [hpred]
    rcases List.any_eq_true.mp h with ⟨p, hp, hpk⟩
    have hsome : (store.find? (fun p : String × CachedRecord => p.1 == key)).isSome := by
      rw [List.find?_isSome]; exact ⟨p, hp, hpk⟩
    rcases Option.isSome_iff_exists.mp hsome with ⟨q, hq⟩
    have hqk : q.1 = key := by simpa using List.find?_some hq
    rw [hq]
    simp [hqk]
  | false =>
    have happ : setItem store key v = store ++ [(key, v)] := by
      unfold setItem
      rw [h]
      simp
    rw [happ]
    unfold getItem
    rw [List.find?_append]
    have hnone : store.find? (fun p : String × CachedRecord => p.1 == key) = none := by
      rw [List.find?_eq_none]
      intro p hp
      rw [List.any_eq_false] at h
      exact h p hp
    rw [hnone]
    have h3 : List.find? (fun p : String × CachedRecord => p.1 == key) [(key, v)]
        = some (key, v) := by
      rw [List.find?_cons_of_pos]
      simp
    rw [h3]
    rfl

/-- Saving over an existing owner record overwrites it in place, carrying
the attempt timestamp forward when no historical fetch was just attempted. -/
theorem loadFromLocalStorage_after_save (cap : Nat) (store : Storage) {userId : String}
    {c : CachedRecord} (data : DataCache) (flag : Bool) (now : Int)
    (hload : loadFromLocalStorage userId store = some c) :
    loadFromLocalStorage userId (saveToLocalStorage cap store userId data flag now) =
      some { user_id := userId, cached_at := now, readings := data.readings,
             hourly_samples := data.hourly_samples,
             last_fetch_timestamp := data.last_fetch_timestamp,
             historical_fetch_attempted_at :=
               if flag then some now else c.historical_fetch_attempted_at } := by
  obtain ⟨hu, hget, hcu⟩ := loadFromLocalStorage_some hload
  have hok : setItemOk cap store (getLocalStorageKey userId) = true := by
    unfold setItemOk
    rw [any_of_getItem hget]
    rfl
  simp only [saveToLocalStorage]
  rw [if_neg hu, hload, if_pos hok]
  unfold loadFromLocalStorage
  rw [if_neg hu, getItem_setItem_self]
  simp

/-- C6 (confirmed): loading the durable cache with owner `userId`'s key
returns `none` or a record whose stored owner tag is `userId` — never data
tagged with another owner, whatever else the shared store contains. -/
theorem loadFromLocalStorage_owner_isolation (userId : String) (store : Storage)
    (r : CachedRecord) (h : loadFromLocalStorage userId store = some r) :
    r.user_id = userId :=
  (loadFromLocalStorage_some h).2.2

/-- C6 witness: owner B's record physically precedes owner A's in storage;
loading with A's key returns the A-tagged record. -/
theorem c6_witness :
    loadFromLocalStorage "A"
        [("growsense_cache_B", (⟨"B", 0, [], [], none, none⟩ : CachedRecord)),
         ("growsense_cache_A", (⟨"A", 7, [], [], none, none⟩ : CachedRecord))]
      = some (⟨"A", 7, [], [], none, none⟩ : CachedRecord) ∧
    (⟨"A", 7, [], [], none, none⟩ : CachedRecord).user_id = "A" :=
  ⟨by decide,
   loadFromLocalStorage_owner_isolation "A"
     [("growsense_cache_B", ⟨"B", 0, [], [], none, none⟩),
      ("growsense_cache_A", ⟨"A", 7, [], [], none, none⟩)]
     ⟨"A", 7, [], [], none, none⟩ (by decide)⟩

/-- C5 (amended): on every successful fetch, the client sets its cursor
`last_fetch_timestamp` to its own wall-clock time at response processing
(`new Date().toISOString()`); no server-supplied cursor field is consulted
(the result is the same whatever `new_cursor` the response carries), and in
particular the cursor is not the maximum reading timestamp of the response. -/
theorem fetchUserData_cursor_client_time (cache : DataCache)
    (data : ServerResponse) (now : Int) :
    (fetchUserData cache (.ok data) now).toOption.map
      (fun c => c.last_fetch_timestamp) = some (some now) := by
  obtain ⟨rs, hs, ts⟩ := cache
  cases ts <;> cases rs <;> rfl

/-- C5, counterexample: a response carrying a (hypothetical) server cursor
field `new_cursor = 500`, processed at client time 700 — the resulting
cursor is 700, not the server-returned 500, refuting "the client's cursor is
updated to the server-returned new_cursor". -/
theorem c5_counterexample :
    (fetchUserData ⟨[], [], none⟩ (.ok ⟨[], some 500⟩) 700).toOption.map
        (fun c => c.last_fetch_timestamp) = some (some 700) ∧
      (fetchUserData ⟨[], [], none⟩ (.ok ⟨[], some 500⟩) 700).toOption.map
        (fun c => c.last_fetch_timestamp) ≠ some ((⟨[], some 500⟩ : ServerResponse).new_cursor) :=
  ⟨rfl, by decide⟩

/-- The in-memory result of a tick does not depend on the storage quota. -/
theorem tick_mem_cap_indep (cap cap2 : Nat) (store : Storage) (mem : MemState)
    (userId : String) (now : Int) (rr : Except Unit ServerResponse)
    (hh : Except Unit (List Reading)) :
    (tick cap store mem userId now rr hh).2.1 = (tick cap2 store mem userId now rr hh).2.1 := by
  simp only [tick]
  by_cases hu : userId = ""
  · rw [if_pos hu, if_pos hu]
  · rw [if_neg hu, if_neg hu]
    cases hf : fetchUserData (restoreStep mem (loadFromLocalStorage userId store)).dataCache
        rr now with
    | error e => rfl
    | ok c => rfl

/-- C7 (amended): when the durable-store write fails with
`QuotaExceededError`, the save clears exactly the `growsense_cache_` entries
of other owners (never the current owner's entry, never foreign keys) and
then stops: the write is *not* retried, so the current owner's record is
dropped for this save; the in-memory copy is untouched (the tick's memory
outcome is independent of the quota). -/
theorem saveToLocalStorage_quota (cap : Nat) (store : Storage) (userId : String)
    (data : DataCache) (flag : Bool) (now : Int) (hu : userId ≠ "")
    (hq : setItemOk cap store (getLocalStorageKey userId) = false) :
    saveToLocalStorage cap store userId data flag now = clearOldCaches store userId ∧
      (∀ p ∈ store,
        (¬ strStartsWith p.1 "growsense_cache_" = true ∨ p.1 = getLocalStorageKey userId) →
          p ∈ clearOldCaches store userId) ∧
      (∀ p ∈ clearOldCaches store userId, p ∈ store) ∧
      (∀ (cap2 : Nat) (mem : MemState) (rr : Except Unit ServerResponse)
          (hh : Except Unit (List Reading)),
        (tick cap store mem userId now rr hh).2.1 =
          (tick cap2 store mem userId now rr hh).2.1) := by
  refine ⟨?_, ?_, ?_, fun cap2 mem rr hh => tick_mem_cap_indep cap cap2 store mem userId now rr hh⟩
  · simp only [saveToLocalStorage]
    rw [if_neg hu, if_neg (by simp [hq])]
  · intro p hp hcond
    unfold clearOldCaches
    rw [List.mem_filter]
    refine ⟨hp, ?_⟩
    rcases hcond with hc | hc
    · simp [hc]
    · simp [hc]
  · intro p hp
    exact List.mem_of_mem_filter hp

/-- C7, counterexample: the store holds only owner B's record and is at
capacity 1; saving owner A's cache hits the quota, evicts B's entry — and
then A's record is still absent, although the eviction has freed space (a
retry would have succeeded).  This refutes "retries the write exactly
once". -/
theorem c7_counterexample :
    saveToLocalStorage 1
        [("growsense_cache_B", (⟨"B", 0, [], [], none, none⟩ : CachedRecord))] "A"
        ⟨[], [], none⟩ false 100 = [] ∧
      getItem (saveToLocalStorage 1
        [("growsense_cache_B", (⟨"B", 0, [], [], none, none⟩ : CachedRecord))] "A"
        ⟨[], [], none⟩ false 100) "growsense_cache_A" = none ∧
      ([] : Storage).length < 1 :=
  ⟨by decide, by decide, by decide⟩

/-- C7 witness: the amended quota behaviour at the counterexample input. -/
theorem c7_witness :
    saveToLocalStorage 1
        [("growsense_cache_B", (⟨"B", 0, [], [], none, none⟩ : CachedRecord))] "A"
        ⟨[], [], none⟩ false 100
      = clearOldCaches
          [("growsense_cache_B", (⟨"B", 0, [], [], none, none⟩ : CachedRecord))] "A" :=
  (saveToLocalStorage_quota 1 [("growsense_cache_B", ⟨"B", 0, [], [], none, none⟩)] "A"
    ⟨[], [], none⟩ false 100 (by decide) (by decide)).1

/-- A successful fetch advances the cursor to the tick's own time and
reports success. -/
theorem tick_success_cursor (cap : Nat) (store : Storage) (mem : MemState)
    (userId : String) (now : Int) (data : ServerResponse)
    (hh : Except Unit (List Reading)) (hu : userId ≠ "") :
    (tick cap store mem userId now (.ok data) hh).2.1.dataCache.last_fetch_timestamp
        = some now ∧
      (tick cap store mem userId now (.ok data) hh).2.2.fetchSucceeded = true := by
  simp only [tick]
  rw [if_neg hu]
  cases hn : needsHistoricalFetchB (loadFromLocalStorage userId store) mem now with
  | true => exact ⟨rfl, rfl⟩
  | false => exact ⟨rfl, rfl⟩

/-- C8 (confirmed): a failed incremental fetch aborts the tick with no
mutation — the durable store is untouched, the in-memory cache is exactly
the restored pre-fetch state (cursor not advanced, readings not merged), no
historical fetch is issued — and nothing is suppressed afterwards: the next
tick with a successful response proceeds and advances the cursor to its own
time (the fixed poll interval is the only retry mechanism; no backoff
state exists). -/
theorem tick_fetch_failure (cap : Nat) (store : Storage) (mem : MemState)
    (userId : String) (now : Int) (hh : Except Unit (List Reading))
    (hu : userId ≠ "") :
    (tick cap store mem userId now (.error ()) hh).1 = store ∧
      (tick cap store mem userId now (.error ()) hh).2.1 =
        restoreStep mem (loadFromLocalStorage userId store) ∧
      (tick cap store mem userId now (.error ()) hh).2.2 = ⟨false, false⟩ ∧
      ∀ (now2 : Int) (data : ServerResponse) (hh2 : Except Unit (List Reading)),
        (tick cap (tick cap store mem userId now (.error ()) hh).1
            (tick cap store mem userId now (.error ()) hh).2.1 userId now2 (.ok data)
            hh2).2.1.dataCache.last_fetch_timestamp = some now2 ∧
          (tick cap (tick cap store mem userId now (.error ()) hh).1
            (tick cap store mem userId now (.error ()) hh).2.1 userId now2 (.ok data)
            hh2).2.2.fetchSucceeded = true := by
  have h : tick cap store mem userId now (.error ()) hh =
      (store, restoreStep mem (loadFromLocalStorage userId store), ⟨false, false⟩) := by
    simp only [tick]
    rw [if_neg hu]
    rfl
  refine ⟨by rw [h], by rw [h], by rw [h], ?_⟩
  intro now2 data hh2
  rw [h]
  exact tick_success_cursor cap store (restoreStep mem (loadFromLocalStorage userId store))
    userId now2 data hh2 hu

/-- C8 witness: a failing tick at a concrete state, followed by a
successful tick that advances the cursor. -/
theorem c8_witness :
    (tick 10 [] ⟨⟨[], [], none⟩, false⟩ "u" 5 (.error ()) (.ok [])).1 = [] ∧
      (tick 10 [] ⟨⟨[], [], none⟩, false⟩ "u" 5 (.error ()) (.ok [])).2.2 = ⟨false, false⟩ ∧
      (tick 10 (tick 10 [] ⟨⟨[], [], none⟩, false⟩ "u" 5 (.error ()) (.ok [])).1
          (tick 10 [] ⟨⟨[], [], none⟩, false⟩ "u" 5 (.error ()) (.ok [])).2.1 "u" 65
          (.ok ⟨[], none⟩) (.ok [])).2.1.dataCache.last_fetch_timestamp = some 65 := by
  have h := tick_fetch_failure 10 [] ⟨⟨[], [], none⟩, false⟩ "u" 5 (.ok []) (by decide)
  exact ⟨h.1, h.2.2.1, (h.2.2.2 65 ⟨[], none⟩ (.ok [])).1⟩

/-- Under an active cooldown the historical-fetch decision is negative. -/
theorem needsHist_false_of_cooldown {c : CachedRecord} {T now : Int} (mem : MemState)
    (hT : c.historical_fetch_attempted_at = some T)
    (hnow : now < T + CONFIG_historicalEmptyFetchCooldownMs) :
    needsHistoricalFetchB (some c) mem now = false := by
  have h1 : recentlyFetchedEmpty (some c) now = true := by
    unfold recentlyFetchedEmpty
    have hb : (some c).bind (fun x => x.historical_fetch_attempted_at) = some T := by
      simp [hT]
    rw [hb]
    have hng : ¬ (now - T > CONFIG_historicalEmptyFetchCooldownMs) := by linarith
    simp [hng]
  unfold needsHistoricalFetchB
  rw [h1]
  simp

/-- After the cooldown, with no historical data anywhere and a fresh
session, the historical-fetch decision is positive. -/
theorem needsHist_true_after_cooldown {c : CachedRecord} {T now : Int} (mem : MemState)
    (hT : c.historical_fetch_attempted_at = some T)
    (hsamp : c.hourly_samples = [])
    (hmem : mem.dataCache.hourly_samples = [])
    (hcomp : mem.historicalFetchCompleted = false)
    (hnow : T + CONFIG_historicalEmptyFetchCooldownMs < now) :
    needsHistoricalFetchB (some c) mem now = true := by
  have h1 : recentlyFetchedEmpty (some c) now = false := by
    unfold recentlyFetchedEmpty
    have hb : (some c).bind (fun x => x.historical_fetch_attempted_at) = some T := by
      simp [hT]
    rw [hb]
    have hg : now - T > CONFIG_historicalEmptyFetchCooldownMs := by linarith
    simp [hg]
  unfold needsHistoricalFetchB
  rw [h1]
  simp [hasHistorical, hsamp, hmem, hcomp]

/-- A tick under an active persisted cooldown issues no historical fetch
and carries the persisted attempt timestamp forward. -/
theorem tick_cooldown_invariant (cap : Nat) {store : Storage} (mem : MemState)
    {userId : String} {c : CachedRecord} {T : Int} (now : Int)
    (rr : Except Unit ServerResponse) (hh : Except Unit (List Reading))
    (hload : loadFromLocalStorage userId store = some c)
    (hT : c.historical_fetch_attempted_at = some T)
    (hnow : now < T + CONFIG_historicalEmptyFetchCooldownMs) :
    (tick cap store mem userId now rr hh).2.2.issuedHistorical = false ∧
      ∃ c2, loadFromLocalStorage userId (tick cap store mem userId now rr hh).1 = some c2 ∧
        c2.historical_fetch_attempted_at = some T := by
  have hu := (loadFromLocalStorage_some hload).1
  have hneeds := needsHist_false_of_cooldown mem hT hnow
  cases rr with
  | error e =>
    have h : tick cap store mem userId now (.error e) hh =
        (store, restoreStep mem (loadFromLocalStorage userId store), ⟨false, false⟩) := by
      simp only [tick]
      rw [if_neg hu]
      rfl
    rw [h]
    exact ⟨rfl, c, hload, hT⟩
  | ok data =>
    simp only [tick]
    rw [if_neg hu, hload, hneeds]
    have hstep : ∀ (m : MemState), historicalStep m false hh = (m, false) := fun _ => rfl
    simp only [hstep]
    exact ⟨rfl, _, loadFromLocalStorage_after_save cap store _ false now hload, by simp [hT]⟩

/-- No tick of a run under an active persisted cooldown issues a
historical fetch. -/
theorem runTicks_cooldown (cap : Nat) (userId : String) (T : Int) :
    ∀ (inputs : List TickInput) (store : Storage) (mem : MemState) (c : CachedRecord),
      loadFromLocalStorage userId store = some c →
      c.historical_fetch_attempted_at = some T →
      (∀ i ∈ inputs, i.now < T + CONFIG_historicalEmptyFetchCooldownMs) →
      ∀ info ∈ (runTicks cap userId store mem inputs).2.2, info.issuedHistorical = false := by
  intro inputs
  induction inputs with
  | nil =>
    intro store mem c _ _ _ info hinfo
    simp [runTicks] at hinfo
  | cons i is ih =>
    intro store mem c hload hT hticks info hinfo
    obtain ⟨hiss, c2, hload2, hT2⟩ := tick_cooldown_invariant cap mem i.now i.recentResp
      i.histResp hload hT (hticks i (List.mem_cons_self i is))
    simp only [runTicks] at hinfo
    rcases List.mem_cons.mp hinfo with rfl | hmem
    · exact hiss
    · exact ih _ _ c2 hload2 hT2 (fun j hj => hticks j (List.mem_cons_of_mem i hj)) info hmem

/-- A tick strictly after the cooldown, with no historical data and a fresh
session, does issue a historical fetch. -/
theorem tick_issues_after_cooldown (cap : Nat) (store : Storage) (mem : MemState)
    (userId : String) {c : CachedRecord} {T : Int} (now : Int) (data : ServerResponse)
    (hh : Except Unit (List Reading))
    (hload : loadFromLocalStorage userId store = some c)
    (hT : c.historical_fetch_attempted_at = some T)
    (hsamp : c.hourly_samples = [])
    (hmem : mem.dataCache.hourly_samples = [])
    (hcomp : mem.historicalFetchCompleted = false)
    (hnow : T + CONFIG_historicalEmptyFetchCooldownMs < now) :
    (tick cap store mem userId now (.ok data) hh).2.2.issuedHistorical = true := by
  have hu := (loadFromLocalStorage_some hload).1
  have hneeds := needsHist_true_after_cooldown mem hT hsamp hmem hcomp hnow
  simp only [tick]
  rw [if_neg hu, hload, hneeds]
  rfl

/-- C4 (confirmed): with a persisted history-fetch attempt timestamp `T`,
every refresh tick strictly before `T + cooldown` (cooldown = 1 hour)
issues no history fetch, across arbitrarily many consecutive ticks — each
tick also preserves the persisted timestamp `T` — while a tick strictly
after `T + cooldown` (with no historical data cached and a fresh session)
does issue one. -/
theorem cooldown_enforcement
    (cap : Nat) (userId : String) (T : Int)
    (store : Storage) (mem : MemState) (c : CachedRecord) (inputs : List TickInput)
    (hload : loadFromLocalStorage userId store = some c)
    (hT : c.historical_fetch_attempted_at = some T)
    (hticks : ∀ i ∈ inputs, i.now < T + CONFIG_historicalEmptyFetchCooldownMs)
    (now2 : Int) (data2 : ServerResponse) (hh2 : Except Unit (List Reading))
    (hsamp : c.hourly_samples = []) (hmem : mem.dataCache.hourly_samples = [])
    (hcomp : mem.historicalFetchCompleted = false)
    (hnow2 : T + CONFIG_historicalEmptyFetchCooldownMs < now2) :
    (∀ info ∈ (runTicks cap userId store mem inputs).2.2, info.issuedHistorical = false)
      ∧ (tick cap store mem userId now2 (.ok data2) hh2).2.2.issuedHistorical = true :=
  ⟨runTicks_cooldown cap userId T inputs store mem c hload hT hticks,
   tick_issues_after_cooldown cap store mem userId now2 data2 hh2 hload hT hsamp hmem
     hcomp hnow2⟩

/-- C4 witness: attempt persisted at `T = 0`; ticks at 10 ms and 20 ms are
suppressed, a tick at 3600001 ms (one hour plus 1 ms) issues the fetch. -/
theorem c4_witness :
    (∀ info ∈ (runTicks 10 "u" [("growsense_cache_u",
        (⟨"u", 0, [], [], none, some 0⟩ : CachedRecord))] ⟨⟨[], [], none⟩, false⟩
        [⟨10, .ok ⟨[], none⟩, .ok []⟩, ⟨20, .error (), .error ()⟩]).2.2,
      info.issuedHistorical = false)
    ∧ (tick 10 [("growsense_cache_u", (⟨"u", 0, [], [], none, some 0⟩ : CachedRecord))]
        ⟨⟨[], [], none⟩, false⟩ "u" 3600001 (.ok ⟨[], none⟩)
        (.ok [])).2.2.issuedHistorical = true :=
  cooldown_enforcement 10 "u" 0
    [("growsense_cache_u", ⟨"u", 0, [], [], none, some 0⟩)] ⟨⟨[], [], none⟩, false⟩
    ⟨"u", 0, [], [], none, some 0⟩
    [⟨10, .ok ⟨[], none⟩, .ok []⟩, ⟨20, .error (), .error ()⟩]
    (by decide) rfl (by decide) 3600001 ⟨[], none⟩ (.ok []) rfl rfl rfl (by decide)

end GrowSense
